import Mathlib

/-!
A shallow embedding of `arch/arm/common/gic.c` (ARM Generic Interrupt
Controller driver) and proofs about its line operations, power
transitions, cascade handling and lock discipline.

Registers are modelled semantically: the Distributor's Enable-Set /
Enable-Clear register pair is one `enabled : Nat → Nat` bitmask per
32-line word (writing the Set register ORs bits in, writing the Clear
register clears bits, reading the Set register yields the mask), the
per-line 2-bit configuration registers are `cfg : Nat → Nat` (one value
per 16-line word), the byte-per-line Target registers are
`target : Nat → Nat` (one value per 4-line word) and the Pending pair is
`pending : Nat → Nat`.  All register words are 32-bit; writes store the
value reduced mod 2^32, as `writel` of a `u32` does.

Platform hook calls compiled under `CONFIG_MSM_MPM` / `CONFIG_MSM_RPM`
are external collaborators and are not part of the modelled state.
-/

namespace Gic

/-- Reduce to a 32-bit register value, as storing through a `u32` does. -/
def w32 (x : Nat) : Nat := x % 2 ^ 32

/-- Bitwise complement within a 32-bit word: `~x` on a `u32`. -/
def wnot (x : Nat) : Nat := 0xffffffff ^^^ (x % 2 ^ 32)

/-- Distributor register state of one controller, per-word. -/
structure DistState where
  enabled : Nat → Nat
  cfg : Nat → Nat
  target : Nat → Nat
  pending : Nat → Nat

/-- `struct gic_chip_data` (gic.c:47-56): per-controller bookkeeping.
`wakeup_irqs` and `enabled_irqs` are the wake / enabled snapshots, one
32-bit word per 32 lines. -/
structure GicChipData where
  irq_offset : Nat
  max_irq : Nat
  wakeup_irqs : Nat → Nat
  enabled_irqs : Nat → Nat

/-- `writel(v, dist_base + GIC_DIST_ENABLE_CLEAR + i*4)`: clears in word
`i` of the enabled mask every bit set in `v`. -/
def writeEnableClear (s : DistState) (i v : Nat) : DistState :=
  { s with enabled := fun j => if j = i then s.enabled j &&& wnot v else s.enabled j }

/-- `writel(v, dist_base + GIC_DIST_ENABLE_SET + i*4)`: sets in word `i`
of the enabled mask every bit set in `v`. -/
def writeEnableSet (s : DistState) (i v : Nat) : DistState :=
  { s with enabled := fun j => if j = i then s.enabled j ||| w32 v else s.enabled j }

/-- `readl(dist_base + GIC_DIST_ENABLE_SET + i*4)`: reads word `i` of
the enabled mask. -/
def readEnableSet (s : DistState) (i : Nat) : Nat := s.enabled i

/-- Well-formedness: every stored register / snapshot word fits in 32 bits. -/
def DistState.wf (s : DistState) : Prop :=
  (∀ j, s.enabled j < 2 ^ 32) ∧ (∀ j, s.cfg j < 2 ^ 32) ∧
  (∀ j, s.target j < 2 ^ 32) ∧ (∀ j, s.pending j < 2 ^ 32)

/-- `gic->irq_offset = (irq_start - 1) & ~31` (gic.c:480). -/
def gic_init_offset (irq_start : Nat) : Nat := (irq_start - 1) &&& 0xffffffe0

/-- `gic_mask_irq` (gic.c:93-104): `mask = 1 << (d->irq % 32)` — note
the *global* irq number — written to Enable-Clear at word
`gic_irq(d) / 32` (the *local* line number). -/
def gic_mask_irq (irq offset : Nat) (s : DistState) : DistState :=
  writeEnableClear s ((irq - offset) / 32) (1 <<< (irq % 32))

/-- `gic_unmask_irq` (gic.c:106-117): same bit and word, written to
Enable-Set. -/
def gic_unmask_irq (irq offset : Nat) (s : DistState) : DistState :=
  writeEnableSet s ((irq - offset) / 32) (1 <<< (irq % 32))

/- ### `gic_set_type` (gic.c:248-298) -/

/-- `IRQ_TYPE_EDGE_RISING` from `linux/irq.h`. -/
def IRQ_TYPE_EDGE_RISING : Nat := 1

/-- `IRQ_TYPE_LEVEL_HIGH` from `linux/irq.h`. -/
def IRQ_TYPE_LEVEL_HIGH : Nat := 4

/-- `-EINVAL`. -/
def EINVAL_ret : Int := -22

/-- Outcome of `gic_set_type`: the C return value, the distributor state
on exit, and whether the external dispatch framework was switched to the
edge handler (`__set_irq_handler_unlocked`, gic.c:290-291). -/
structure TypeRes where
  ret : Int
  st : DistState
  edgeHandler : Bool

/-- `gic_set_type(d, type)` (gic.c:248-298).  `gicirq = gic_irq(d)` is
the local line; `confmask = 0x2 << ((gicirq % 16) * 2)` touches only the
high bit of the line's 2-bit field; `confoff` and `enableoff` are word
indices (byte offsets divided by 4 in the C code). -/
def gic_set_type (irq offset ty : Nat) (s : DistState) : TypeRes :=
  let gicirq := irq - offset
  let enablemask := 1 <<< (gicirq % 32)
  let enableoff := gicirq / 32
  let confmask := 0x2 <<< ((gicirq % 16) * 2)
  let confoff := gicirq / 16
  if gicirq < 16 then ⟨EINVAL_ret, s, false⟩
  else if ty ≠ IRQ_TYPE_LEVEL_HIGH ∧ ty ≠ IRQ_TYPE_EDGE_RISING then ⟨EINVAL_ret, s, false⟩
  else
    let val := s.cfg confoff
    let val := if ty = IRQ_TYPE_LEVEL_HIGH then val &&& wnot confmask
      else if ty = IRQ_TYPE_EDGE_RISING then val ||| confmask else val
    let wasEnabled := (readEnableSet s enableoff &&& enablemask) ≠ 0
    let s := if wasEnabled then writeEnableClear s enableoff enablemask else s
    let s := { s with cfg := fun j => if j = confoff then w32 val else s.cfg j }
    let s := if wasEnabled then writeEnableSet s enableoff enablemask else s
    ⟨0, s, (ty &&& IRQ_TYPE_EDGE_RISING) ≠ 0 ∧ gicirq > 31⟩

/-- The 2-bit configuration field of the `k`-th line within one config
word (2 bits per line, 16 lines per word). -/
def confField (v k : Nat) : Nat := (v >>> (k * 2)) &&& 3

/- ### `gic_set_cpu` (gic.c:301-323) -/

/-- Outcome of `gic_set_cpu`: return value, distributor state, and the
`d->node = cpu` assignment on the success path (gic.c:316). -/
structure CpuRes where
  ret : Int
  st : DistState
  node : Option Nat

/-- `gic_set_cpu(d, mask_val, force)` (gic.c:301-323).  `cpu` is
`cpumask_first(mask_val)`, the first CPU of the requested mask.
`descExists` models `irq_to_desc(d->irq) != NULL` — whether the external
dispatch registry has a descriptor for the line.  The Target register
word is at byte offset `gic_irq(d) & ~3` (word index `local / 4`), while
`shift = (d->irq % 4) * 8` uses the *global* irq number.  There is no
check of the local line number; a missing descriptor returns `-EINVAL`. -/
def gic_set_cpu (irq offset cpu : Nat) (descExists : Bool) (s : DistState) : CpuRes :=
  let reg := (irq - offset) / 4
  let shift := (irq % 4) * 8
  if !descExists then ⟨EINVAL_ret, s, none⟩
  else
    let val := s.target reg &&& wnot (0xff <<< shift)
    let val := val ||| 1 <<< (cpu + shift)
    ⟨0, { s with target := fun j => if j = reg then w32 val else s.target j }, some cpu⟩

/- ### `gic_set_wake` (gic.c:188-209) -/

/-- Outcome of `gic_set_wake`: return value, chip data, and whether
`WARN_ON(gicirq < 32)` fired (a log diagnostic; execution continues). -/
structure WakeRes where
  ret : Int
  chip : GicChipData
  warned : Bool

/-- `gic_set_wake(d, on)` (gic.c:188-209).  `WARN_ON(gicirq < 32)` only
emits a diagnostic; the bit at `gicirq % 32` of `wakeup_irqs[gicirq/32]`
is then set or cleared unconditionally and 0 is returned.  No register
is accessed. -/
def gic_set_wake (irq offset : Nat) (onv : Bool) (g : GicChipData) : WakeRes :=
  let gicirq := irq - offset
  let warned := gicirq < 32
  let reg_offset := gicirq / 32
  let bit_offset := gicirq % 32
  let g' := { g with wakeup_irqs := fun j =>
    if j = reg_offset then
      (if onv then g.wakeup_irqs j ||| 1 <<< bit_offset
       else g.wakeup_irqs j &&& wnot (1 <<< bit_offset))
    else g.wakeup_irqs j }
  ⟨0, g', warned⟩

/-- `gic_set_wake` viewed over the combined per-controller state: the
function body contains no `readl`/`writel`, so the distributor register
state is exactly that of the input. -/
def gic_set_wake_full (irq offset : Nat) (onv : Bool)
    (g : GicChipData) (s : DistState) : Int × GicChipData × DistState :=
  let r := gic_set_wake irq offset onv g
  (r.ret, r.chip, s)

/- ### `gic_suspend` / `gic_resume` (gic.c:129-146, 171-186) -/

/-- Number of iterations of the `for (i = 0; i * 32 < max_irq; i++)`
loops: the least `i` with `i * 32 ≥ max_irq`. -/
def numWords (max_irq : Nat) : Nat := (max_irq + 31) / 32

/-- Iterate `f 0`, then `f 1`, …, then `f (n-1)` (ascending loop). -/
def loopWords (f : Nat → α → α) : Nat → α → α
  | 0, a => a
  | n + 1, a => f n (loopWords f n a)

/-- One iteration of the `gic_suspend` loop body (gic.c:135-143):
capture word `i` of the enabled mask into `enabled_irqs[i]`, write
`0xffffffff` to Enable-Clear, then write `wakeup_irqs[i]` to Enable-Set. -/
def suspendStep (i : Nat) (gs : GicChipData × DistState) : GicChipData × DistState :=
  let g := gs.1
  let s := gs.2
  let g' := { g with enabled_irqs := fun j =>
    if j = i then readEnableSet s i else g.enabled_irqs j }
  let s' := writeEnableSet (writeEnableClear s i 0xffffffff) i (g.wakeup_irqs i)
  (g', s')

/-- `gic_suspend` (gic.c:129-146), for the controller `(g, s)`. -/
def gic_suspend (g : GicChipData) (s : DistState) : GicChipData × DistState :=
  loopWords suspendStep (numWords g.max_irq) (g, s)

/-- One iteration of the `gic_resume` loop body (gic.c:177-183): write
`0xffffffff` to Enable-Clear, then write `enabled_irqs[i]` to Enable-Set. -/
def resumeStep (i : Nat) (gs : GicChipData × DistState) : GicChipData × DistState :=
  let g := gs.1
  let s := gs.2
  let s' := writeEnableSet (writeEnableClear s i 0xffffffff) i (g.enabled_irqs i)
  (g, s')

/-- `gic_resume` (gic.c:171-186), for the controller `(g, s)`. -/
def gic_resume (g : GicChipData) (s : DistState) : GicChipData × DistState :=
  loopWords resumeStep (numWords g.max_irq) (g, s)

/- ### `gic_raise_softirq` (gic.c:507-514) -/

/-- The value `gic_raise_softirq(mask, irq)` writes to controller 0's
`GIC_DIST_SOFTINT` register: `map << 16 | irq`, stored as a `u32`.
`map` is the caller's CPU mask as a bitmask word. -/
def gic_raise_softirq_val (map irq : Nat) : Nat := w32 (map <<< 16 ||| irq)

/- ### `gic_handle_cascade_irq` (gic.c:326-353) -/

/-- Observable events of `gic_handle_cascade_irq`, in program order. -/
inductive CEvent where
  | ackPrimary : CEvent
  | lockE : CEvent
  | readIntAck : CEvent
  | unlockE : CEvent
  | dispatch : Nat → CEvent
  | badIRQ : Nat → CEvent
  | unmaskPrimary : CEvent
deriving DecidableEq, Repr

/-- `gic_handle_cascade_irq` (gic.c:326-353) as its event trace.
`status` is the raw value read from the secondary controller's
`GIC_CPU_INTACK`; the code keeps `status & 0x3ff`.  `offset` is the
secondary controller's `irq_offset`, `nrIrqs` is `NR_IRQS`.  The primary
ack (`chip->irq_ack`) comes first, then the locked INTACK read; 1023
short-circuits to the unmask; an id outside 32..1020 or a translated id
at or above `NR_IRQS` goes to `do_bad_IRQ`; every path ends with the
primary unmask (`chip->irq_unmask`). -/
def gic_handle_cascade_irq (status offset nrIrqs : Nat) : List CEvent :=
  let gicirq := status &&& 0x3ff
  let cascade_irq := gicirq + offset
  [CEvent.ackPrimary, CEvent.lockE, CEvent.readIntAck, CEvent.unlockE] ++
  (if gicirq = 1023 then []
   else if gicirq < 32 ∨ gicirq > 1020 ∨ cascade_irq ≥ nrIrqs then [CEvent.badIRQ cascade_irq]
   else [CEvent.dispatch cascade_irq]) ++
  [CEvent.unmaskPrimary]

/- ### Lock-discipline traces

Each operation is also embedded as the sequence of lock, register-access
and memory events its body performs, to state which register sequences
run under `irq_controller_lock`. -/

/-- Lock / access events of one operation body. -/
inductive Event where
  | lock : Event
  | unlock : Event
  | distRead : Event
  | distWrite : Event
  | cpuWrite : Event
  | memWrite : Event
  | barrier : Event
deriving DecidableEq, Repr

/-- `gic_mask_irq` (gic.c:93-104): one Enable-Clear write under the lock. -/
def gic_mask_irq_trace : List Event := [Event.lock, Event.distWrite, Event.unlock]

/-- `gic_unmask_irq` (gic.c:106-117): one Enable-Set write under the lock. -/
def gic_unmask_irq_trace : List Event := [Event.lock, Event.distWrite, Event.unlock]

/-- `gic_set_type` (gic.c:248-298): on the error paths nothing happens;
otherwise config read, enable read, optional disable, config write,
optional re-enable, all between lock and unlock. -/
def gic_set_type_trace (gicirq ty : Nat) (wasEnabled : Bool) : List Event :=
  if gicirq < 16 then []
  else if ty ≠ IRQ_TYPE_LEVEL_HIGH ∧ ty ≠ IRQ_TYPE_EDGE_RISING then []
  else
    [Event.lock, Event.distRead, Event.distRead] ++
    (if wasEnabled then [Event.distWrite] else []) ++
    [Event.distWrite] ++
    (if wasEnabled then [Event.distWrite] else []) ++
    [Event.unlock]

/-- `gic_set_cpu` (gic.c:301-323): lock, descriptor lookup; on the
missing-descriptor path unlock and return; otherwise `d->node`
assignment, Target read-modify-write, unlock. -/
def gic_set_cpu_trace (descExists : Bool) : List Event :=
  if descExists then
    [Event.lock, Event.memWrite, Event.distRead, Event.distWrite, Event.unlock]
  else [Event.lock, Event.unlock]

/-- `gic_set_wake` (gic.c:188-209): a single in-memory snapshot update;
no lock is taken and no register is accessed. -/
def gic_set_wake_trace : List Event := [Event.memWrite]

/-- The per-word events of the `gic_suspend` loop (gic.c:135-143),
iterations 0..n-1 in order: Enable-Set read, Enable-Clear write,
Enable-Set write. -/
def suspendBody : Nat → List Event
  | 0 => []
  | n + 1 => suspendBody n ++ [Event.distRead, Event.distWrite, Event.distWrite]

/-- `gic_suspend` (gic.c:129-146) over `n` words: the loop followed by
`mb()`.  No lock is taken. -/
def gic_suspend_trace (n : Nat) : List Event := suspendBody n ++ [Event.barrier]

/-- The per-word events of the `gic_resume` loop (gic.c:177-183):
Enable-Clear write, Enable-Set write. -/
def resumeBody : Nat → List Event
  | 0 => []
  | n + 1 => resumeBody n ++ [Event.distWrite, Event.distWrite]

/-- `gic_resume` (gic.c:171-186) over `n` words: the loop followed by
`mb()`.  No lock is taken. -/
def gic_resume_trace (n : Nat) : List Event := resumeBody n ++ [Event.barrier]

/-- Checks that every Distributor access in the trace happens at
positive lock depth, starting from depth `d`, and that every unlock has
a matching lock. -/
def wellLockedAux : List Event → Nat → Bool
  | [], _ => true
  | Event.lock :: es, d => wellLockedAux es (d + 1)
  | Event.unlock :: es, d => decide (d ≠ 0) && wellLockedAux es (d - 1)
  | Event.distRead :: es, d => decide (d ≠ 0) && wellLockedAux es d
  | Event.distWrite :: es, d => decide (d ≠ 0) && wellLockedAux es d
  | _ :: es, d => wellLockedAux es d

/-- Every Distributor register access in the trace occurs between a lock
acquire and its matching release. -/
def wellLocked (t : List Event) : Bool := wellLockedAux t 0

/-- Whether a trace accesses any Distributor register at all. -/
def touchesDist (t : List Event) : Bool :=
  t.any fun e => e = Event.distRead || e = Event.distWrite

/-- The byte-per-line field of the `b`-th line within one Target
register word (1 byte per line, 4 lines per word). -/
def byteField (v b : Nat) : Nat := (v >>> (b * 8)) &&& 0xff

/- ### Concrete controller states for witnesses and counterexamples -/

/-- A controller with 32 lines whose wake snapshot has bit 0 of word 0
set; offset 0. -/
def chipA : GicChipData := ⟨0, 32, fun _ => 1, fun _ => 0⟩

/-- A controller with 64 lines and empty snapshots; offset 0. -/
def chipB : GicChipData := ⟨0, 64, fun _ => 0, fun _ => 0⟩

/-- A distributor register file with nothing enabled, every config word
equal to 1 (low bit of field 0 set) and empty Target/Pending words. -/
def distA : DistState := ⟨fun _ => 0, fun _ => 1, fun _ => 0, fun _ => 0⟩

/- ### Theorems -/

/- ### Bit-level helper lemmas -/
theorem w32_eq_of_lt {x : Nat} (h : x < 2 ^ 32) : w32 x = x := Nat.mod_eq_of_lt h

theorem testBit_wnot_lt {m i : Nat} (hm : m < 2 ^ 32) (hi : i < 32) :
    (wnot m).testBit i = !(m.testBit i) := by
  rw [wnot, Nat.mod_eq_of_lt hm,
    show (0xffffffff : Nat) = 2 ^ 32 - 1 from by norm_num,
    Nat.testBit_xor, Nat.testBit_two_pow_sub_one, decide_eq_true hi, Bool.true_xor]

theorem testBit_wnot_ge {m i : Nat} (hi : 32 ≤ i) : (wnot m).testBit i = false := by
  have hmod : m % 2 ^ 32 < 2 ^ 32 := Nat.mod_lt _ (by norm_num)
  have h1 : Nat.testBit (2 ^ 32 - 1) i = false := by
    rw [Nat.testBit_two_pow_sub_one]
    exact decide_eq_false (by omega)
  have h2 : Nat.testBit (m % 2 ^ 32) i = false :=
    Nat.testBit_lt_two_pow (lt_of_lt_of_le hmod (Nat.pow_le_pow_right (by norm_num) hi))
  rw [wnot, show (0xffffffff : Nat) = 2 ^ 32 - 1 from by norm_num,
    Nat.testBit_xor, h1, h2]
  rfl

theorem wnot_lt (m : Nat) : wnot m < 2 ^ 32 := by
  have hmod : m % 2 ^ 32 < 2 ^ 32 := Nat.mod_lt _ (by norm_num)
  exact Nat.xor_lt_two_pow (by norm_num) hmod

/-- Clearing one bit: bit `b` of `x &&& ~(1 <<< b)` is false, all other
bits below 32 are unchanged (for a 32-bit `x`, all other bits). -/
theorem and_wnot_single_testBit {x b i : Nat} (hx : x < 2 ^ 32) (hb : b < 32) :
    (x &&& wnot (1 <<< b)).testBit i = (x.testBit i && !(decide (i = b))) := by
  have hpow : (1 <<< b : Nat) = 2 ^ b := Nat.one_shiftLeft b
  have hlt : (1 <<< b : Nat) < 2 ^ 32 := by
    rw [hpow]; exact Nat.pow_lt_pow_right (by norm_num) hb
  rcases Nat.lt_or_ge i 32 with hi | hi
  · rw [Nat.testBit_and, testBit_wnot_lt hlt hi, hpow, Nat.testBit_two_pow]
    by_cases h : i = b
    · subst h; simp
    · have h' : ¬ b = i := fun hbi => h hbi.symm
      simp [h, h']
  · have hxi : x.testBit i = false :=
      Nat.testBit_lt_two_pow (lt_of_lt_of_le hx (Nat.pow_le_pow_right (by norm_num) hi))
    rw [Nat.testBit_and, testBit_wnot_ge hi, hxi]
    simp

/-- Setting one bit: bit `b` of `x ||| (1 <<< b)` is true, all other
bits are unchanged. -/
theorem or_single_testBit {x b i : Nat} :
    (x ||| 1 <<< b).testBit i = (x.testBit i || decide (i = b)) := by
  rw [Nat.testBit_or, Nat.one_shiftLeft, Nat.testBit_two_pow]
  by_cases h : i = b
  · subst h; simp
  · have h' : ¬ b = i := fun hbi => h hbi.symm
    simp [h, h']

/-- `(x - 1) & ~31` is a multiple of 32 (used for `gic_init_offset`). -/
theorem gic_init_offset_mod32 (irq_start : Nat) : gic_init_offset irq_start % 32 = 0 := by
  have h : gic_init_offset irq_start &&& 31 = 0 := by
    have : gic_init_offset irq_start &&& 31
        = (irq_start - 1) &&& (0xffffffe0 &&& 31) := by
      rw [gic_init_offset, Nat.and_assoc]
    rw [this, show (0xffffffe0 &&& 31 : Nat) = 0 from by decide, Nat.and_zero]
  have h31 : (31 : Nat) = 2 ^ 5 - 1 := by norm_num
  rw [h31] at h
  rw [Nat.and_pow_two_sub_one_eq_mod] at h
  simpa using h

/- ### Loop characterization for suspend / resume -/
theorem wnot_ffffffff : wnot 0xffffffff = 0 := by decide

theorem suspend_loop_chip_const (n : Nat) (g : GicChipData) (s : DistState) :
    (loopWords suspendStep n (g, s)).1.wakeup_irqs = g.wakeup_irqs ∧
    (loopWords suspendStep n (g, s)).1.max_irq = g.max_irq ∧
    (loopWords suspendStep n (g, s)).1.irq_offset = g.irq_offset := by
  induction n with
  | zero => exact ⟨rfl, rfl, rfl⟩
  | succ n ih => simpa [loopWords, suspendStep] using ih

theorem suspend_loop_dist_const (n : Nat) (g : GicChipData) (s : DistState) :
    (loopWords suspendStep n (g, s)).2.cfg = s.cfg ∧
    (loopWords suspendStep n (g, s)).2.target = s.target ∧
    (loopWords suspendStep n (g, s)).2.pending = s.pending := by
  induction n with
  | zero => exact ⟨rfl, rfl, rfl⟩
  | succ n ih =>
    simpa [loopWords, suspendStep, writeEnableClear, writeEnableSet] using ih

theorem suspend_loop_enabled (n : Nat) (g : GicChipData) (s : DistState) :
    ∀ j, (loopWords suspendStep n (g, s)).2.enabled j
      = if j < n then w32 (g.wakeup_irqs j) else s.enabled j := by
  induction n with
  | zero => intro j; simp [loopWords]
  | succ n ih =>
    intro j
    have hwk := (suspend_loop_chip_const n g s).1
    simp only [loopWords, suspendStep, writeEnableClear, writeEnableSet]
    by_cases hj : j = n
    · subst hj
      simp [ih j, wnot_ffffffff, hwk]
    · simp only [if_neg hj, ih j]
      by_cases hlt : j < n
      · simp [hlt, Nat.lt_succ_of_lt hlt]
      · have : ¬ j < n + 1 := by omega
        simp [hlt, this]

theorem suspend_loop_snapshot (n : Nat) (g : GicChipData) (s : DistState) :
    ∀ j, (loopWords suspendStep n (g, s)).1.enabled_irqs j
      = if j < n then s.enabled j else g.enabled_irqs j := by
  induction n with
  | zero => intro j; simp [loopWords]
  | succ n ih =>
    intro j
    have hen := suspend_loop_enabled n g s j
    simp only [loopWords, suspendStep, readEnableSet]
    by_cases hj : j = n
    · subst hj
      simp only [if_pos rfl, hen, if_neg (Nat.lt_irrefl j)]
      simp
    · simp only [if_neg hj, ih j]
      by_cases hlt : j < n
      · simp [hlt, Nat.lt_succ_of_lt hlt]
      · have : ¬ j < n + 1 := by omega
        simp [hlt, this]

theorem resume_loop_chip (n : Nat) (g : GicChipData) (s : DistState) :
    (loopWords resumeStep n (g, s)).1 = g := by
  induction n with
  | zero => rfl
  | succ n ih => simp [loopWords, resumeStep, ih]

theorem resume_loop_enabled (n : Nat) (g : GicChipData) (s : DistState) :
    ∀ j, (loopWords resumeStep n (g, s)).2.enabled j
      = if j < n then w32 (g.enabled_irqs j) else s.enabled j := by
  induction n with
  | zero => intro j; simp [loopWords]
  | succ n ih =>
    intro j
    have hch := resume_loop_chip n g s
    simp only [loopWords, resumeStep, writeEnableClear, writeEnableSet, hch]
    by_cases hj : j = n
    · subst hj
      simp [ih j, wnot_ffffffff]
    · simp only [if_neg hj, ih j]
      by_cases hlt : j < n
      · simp [hlt, Nat.lt_succ_of_lt hlt]
      · have : ¬ j < n + 1 := by omega
        simp [hlt, this]

/- ### 2-bit config-field and target-byte lemmas -/
theorem two_shiftLeft_eq (m : Nat) : (0x2 <<< m : Nat) = 2 ^ (m + 1) := by
  rw [Nat.shiftLeft_eq, pow_succ, Nat.mul_comm]

theorem testBit_three (i : Nat) : (3 : Nat).testBit i = decide (i < 2) := by
  rw [show (3 : Nat) = 2 ^ 2 - 1 from by norm_num, Nat.testBit_two_pow_sub_one]

theorem testBit_one_eq (i : Nat) : (1 : Nat).testBit i = decide (0 = i) := by
  rw [show (1 : Nat) = 2 ^ 0 from rfl, Nat.testBit_two_pow]

theorem testBit_two_eq (i : Nat) : (2 : Nat).testBit i = decide (1 = i) := by
  rw [show (2 : Nat) = 2 ^ 1 from rfl, Nat.testBit_two_pow]

/-- The 2-bit field is unaffected by storing through a 32-bit register,
for the 16 fields of one config word. -/
theorem confField_w32 (v k : Nat) (hk : k < 16) : confField (w32 v) k = confField v k := by
  apply Nat.eq_of_testBit_eq
  intro i
  simp only [confField, w32, Nat.testBit_and, Nat.testBit_shiftRight,
    Nat.testBit_mod_two_pow, testBit_three]
  rcases Nat.lt_or_ge i 2 with hi | hi
  · have : k * 2 + i < 32 := by omega
    simp [this]
  · simp [decide_eq_false (by omega : ¬ i < 2)]

/-- ORing in `0x2 << (k*2)` sets the high bit of field `k` and keeps its
low bit. -/
theorem confField_or_self (v k : Nat) :
    confField (v ||| 0x2 <<< (k * 2)) k = confField v k ||| 2 := by
  apply Nat.eq_of_testBit_eq
  intro i
  simp only [confField, two_shiftLeft_eq, Nat.testBit_and, Nat.testBit_or,
    Nat.testBit_shiftRight, Nat.testBit_two_pow, testBit_three, testBit_two_eq]
  rcases i with _ | _ | i
  · simp [decide_eq_false (by omega : ¬ k * 2 + 1 = k * 2 + 0),
      decide_eq_false (by omega : ¬ (1 : Nat) = 0)]
  · simp
  · simp [decide_eq_false (by omega : ¬ k * 2 + 1 = k * 2 + (i + 2)),
      decide_eq_false (by omega : ¬ i + 2 < 2),
      decide_eq_false (by omega : ¬ (1 : Nat) = i + 2)]

/-- ORing in `0x2 << (k*2)` leaves every other field of the word alone. -/
theorem confField_or_other (v k k' : Nat) (hne : k' ≠ k) :
    confField (v ||| 0x2 <<< (k * 2)) k' = confField v k' := by
  apply Nat.eq_of_testBit_eq
  intro i
  simp only [confField, two_shiftLeft_eq, Nat.testBit_and, Nat.testBit_or,
    Nat.testBit_shiftRight, Nat.testBit_two_pow, testBit_three]
  rcases Nat.lt_or_ge i 2 with hi | hi
  · have : ¬ k * 2 + 1 = k' * 2 + i := by omega
    simp [this]
  · simp [decide_eq_false (by omega : ¬ i < 2)]

/-- ANDing with `~(0x2 << (k*2))` clears the high bit of field `k` and
keeps its low bit. -/
theorem confField_and_wnot_self (v k : Nat) (hk : k < 16) :
    confField (v &&& wnot (0x2 <<< (k * 2))) k = confField v k &&& 1 := by
  have hm : (0x2 <<< (k * 2) : Nat) < 2 ^ 32 := by
    rw [two_shiftLeft_eq]
    exact Nat.pow_lt_pow_right (by norm_num) (by omega)
  apply Nat.eq_of_testBit_eq
  intro i
  simp only [confField, Nat.testBit_and, Nat.testBit_shiftRight, testBit_three,
    testBit_one_eq]
  rcases i with _ | _ | i
  · have h32 : k * 2 + 0 < 32 := by omega
    rw [testBit_wnot_lt hm h32, two_shiftLeft_eq, Nat.testBit_two_pow]
    simp [decide_eq_false (by omega : ¬ k * 2 + 1 = k * 2 + 0)]
  · have h32 : k * 2 + 1 < 32 := by omega
    rw [testBit_wnot_lt hm h32, two_shiftLeft_eq, Nat.testBit_two_pow]
    simp
  · simp [decide_eq_false (by omega : ¬ i + 2 < 2),
      decide_eq_false (by omega : ¬ (0 : Nat) = i + 2)]

/-- ANDing with `~(0x2 << (k*2))` leaves every other field of the word
alone. -/
theorem confField_and_wnot_other (v k k' : Nat) (hk : k < 16) (hk' : k' < 16)
    (hne : k' ≠ k) :
    confField (v &&& wnot (0x2 <<< (k * 2))) k' = confField v k' := by
  have hm : (0x2 <<< (k * 2) : Nat) < 2 ^ 32 := by
    rw [two_shiftLeft_eq]
    exact Nat.pow_lt_pow_right (by norm_num) (by omega)
  apply Nat.eq_of_testBit_eq
  intro i
  simp only [confField, Nat.testBit_and, Nat.testBit_shiftRight, testBit_three]
  rcases Nat.lt_or_ge i 2 with hi | hi
  · have h32 : k' * 2 + i < 32 := by omega
    rw [testBit_wnot_lt hm h32, two_shiftLeft_eq, Nat.testBit_two_pow]
    have : ¬ k * 2 + 1 = k' * 2 + i := by omega
    simp [this]
  · simp [decide_eq_false (by omega : ¬ i < 2)]

theorem testBit_ff (i : Nat) : (0xff : Nat).testBit i = decide (i < 8) := by
  rw [show (0xff : Nat) = 2 ^ 8 - 1 from by norm_num, Nat.testBit_two_pow_sub_one]

/-- The byte field is unaffected by storing through a 32-bit register,
for the 4 bytes of one word. -/
theorem byteField_w32 (v b : Nat) (hb : b < 4) : byteField (w32 v) b = byteField v b := by
  apply Nat.eq_of_testBit_eq
  intro i
  simp only [byteField, w32, Nat.testBit_and, Nat.testBit_shiftRight,
    Nat.testBit_mod_two_pow, testBit_ff]
  rcases Nat.lt_or_ge i 8 with hi | hi
  · have : b * 8 + i < 32 := by omega
    simp [this]
  · simp [decide_eq_false (by omega : ¬ i < 8)]

/-- The Target read-modify-write of `gic_set_cpu`: the selected byte of
the resulting word is exactly `1 << cpu`. -/
theorem byteField_target_self (v b cpu : Nat) (hb : b < 4) (hcpu : cpu < 8) :
    byteField ((v &&& wnot (0xff <<< (b * 8))) ||| 1 <<< (cpu + b * 8)) b
      = 1 <<< cpu := by
  have hm : (0xff <<< (b * 8) : Nat) < 2 ^ 32 := by
    rw [Nat.shiftLeft_eq]
    calc 0xff * 2 ^ (b * 8) ≤ 0xff * 2 ^ 24 := by
          apply Nat.mul_le_mul_left
          exact Nat.pow_le_pow_right (by norm_num) (by omega)
      _ < 2 ^ 32 := by norm_num
  apply Nat.eq_of_testBit_eq
  intro i
  simp only [byteField, Nat.testBit_and, Nat.testBit_or, Nat.testBit_shiftRight,
    testBit_ff, Nat.one_shiftLeft, Nat.testBit_two_pow]
  rcases Nat.lt_or_ge i 8 with hi | hi
  · have h32 : b * 8 + i < 32 := by omega
    rw [testBit_wnot_lt hm h32, Nat.testBit_shiftLeft, testBit_ff]
    have hle : b * 8 ≤ b * 8 + i := by omega
    have hsub : b * 8 + i - b * 8 = i := by omega
    rw [decide_eq_true hle, hsub, decide_eq_true hi]
    by_cases hc : cpu = i
    · subst hc
      simp [decide_eq_true (by omega : cpu + b * 8 = b * 8 + cpu)]
    · simp [decide_eq_false (by omega : ¬ cpu + b * 8 = b * 8 + i),
        decide_eq_false hc]
  · simp [decide_eq_false (by omega : ¬ i < 8),
      decide_eq_false (by omega : ¬ cpu = i)]

/-- The Target read-modify-write of `gic_set_cpu` leaves the other three
bytes of the word unchanged. -/
theorem byteField_target_other (v b cpu b' : Nat) (hb : b < 4) (hb' : b' < 4)
    (hne : b' ≠ b) (hcpu : cpu < 8) :
    byteField ((v &&& wnot (0xff <<< (b * 8))) ||| 1 <<< (cpu + b * 8)) b'
      = byteField v b' := by
  have hm : (0xff <<< (b * 8) : Nat) < 2 ^ 32 := by
    rw [Nat.shiftLeft_eq]
    calc 0xff * 2 ^ (b * 8) ≤ 0xff * 2 ^ 24 := by
          apply Nat.mul_le_mul_left
          exact Nat.pow_le_pow_right (by norm_num) (by omega)
      _ < 2 ^ 32 := by norm_num
  apply Nat.eq_of_testBit_eq
  intro i
  simp only [byteField, Nat.testBit_and, Nat.testBit_or, Nat.testBit_shiftRight,
    testBit_ff, Nat.one_shiftLeft, Nat.testBit_two_pow]
  rcases Nat.lt_or_ge i 8 with hi | hi
  · have h32 : b' * 8 + i < 32 := by omega
    rw [testBit_wnot_lt hm h32, Nat.testBit_shiftLeft, testBit_ff]
    have hout : ¬ (b * 8 ≤ b' * 8 + i ∧ b' * 8 + i - b * 8 < 8) := by
      rcases Nat.lt_or_ge b' b with hbb | hbb
      · intro ⟨h1, _⟩; omega
      · intro ⟨_, h2⟩; omega
    by_cases hle : b * 8 ≤ b' * 8 + i
    · have : ¬ b' * 8 + i - b * 8 < 8 := fun hcon => hout ⟨hle, hcon⟩
      rw [decide_eq_true hle, decide_eq_false this]
      simp [decide_eq_false (by omega : ¬ cpu + b * 8 = b' * 8 + i)]
    · rw [decide_eq_false hle]
      simp [decide_eq_false (by omega : ¬ cpu + b * 8 = b' * 8 + i)]
  · simp [decide_eq_false (by omega : ¬ i < 8)]

/-- Variant of `and_wnot_single_testBit` restricted to bit positions
below 32, where no bound on `x` is needed. -/
theorem and_wnot_single_testBit_lt {x b i : Nat} (hb : b < 32) (hi : i < 32) :
    (x &&& wnot (1 <<< b)).testBit i = (x.testBit i && !(decide (i = b))) := by
  have hpow : (1 <<< b : Nat) = 2 ^ b := Nat.one_shiftLeft b
  have hlt : (1 <<< b : Nat) < 2 ^ 32 := by
    rw [hpow]; exact Nat.pow_lt_pow_right (by norm_num) hb
  rw [Nat.testBit_and, testBit_wnot_lt hlt hi, hpow, Nat.testBit_two_pow]
  by_cases h : i = b
  · subst h; simp
  · have h' : ¬ b = i := fun hbi => h hbi.symm
    simp [h, h']

theorem or_two_and_one (x : Nat) : (x ||| 2) &&& 1 = x &&& 1 := by
  apply Nat.eq_of_testBit_eq
  intro i
  simp only [Nat.testBit_and, Nat.testBit_or, testBit_one_eq, testBit_two_eq]
  rcases i with _ | i
  · simp
  · simp [decide_eq_false (by omega : ¬ (0 : Nat) = i + 1)]

/-- The config register contents after `gic_set_type(_, EDGE_RISING)` on
a non-SGI line: word `gicirq / 16` gets the high config bit ORed in, all
other words are untouched. -/
theorem gic_set_type_cfg_ER (irq offset : Nat) (s : DistState)
    (h16 : 16 ≤ irq - offset) :
    (gic_set_type irq offset IRQ_TYPE_EDGE_RISING s).st.cfg = fun j =>
      if j = (irq - offset) / 16
      then w32 (s.cfg ((irq - offset) / 16) ||| 0x2 <<< (((irq - offset) % 16) * 2))
      else s.cfg j := by
  funext j
  simp only [gic_set_type, IRQ_TYPE_EDGE_RISING, IRQ_TYPE_LEVEL_HIGH]
  rw [if_neg (by omega : ¬ irq - offset < 16),
    if_neg (by norm_num : ¬ ((1 : Nat) ≠ 4 ∧ (1 : Nat) ≠ 1))]
  split <;> simp [writeEnableClear, writeEnableSet]

/-- The config register contents after `gic_set_type(_, LEVEL_HIGH)` on
a non-SGI line: word `gicirq / 16` gets the high config bit cleared, all
other words are untouched. -/
theorem gic_set_type_cfg_LH (irq offset : Nat) (s : DistState)
    (h16 : 16 ≤ irq - offset) :
    (gic_set_type irq offset IRQ_TYPE_LEVEL_HIGH s).st.cfg = fun j =>
      if j = (irq - offset) / 16
      then w32 (s.cfg ((irq - offset) / 16) &&& wnot (0x2 <<< (((irq - offset) % 16) * 2)))
      else s.cfg j := by
  funext j
  simp only [gic_set_type, IRQ_TYPE_EDGE_RISING, IRQ_TYPE_LEVEL_HIGH]
  rw [if_neg (by omega : ¬ irq - offset < 16),
    if_neg (by norm_num : ¬ ((4 : Nat) ≠ 4 ∧ (4 : Nat) ≠ 1))]
  split <;> simp [writeEnableClear, writeEnableSet]

/- ### Trace helper lemmas -/
theorem suspendBody_append_unlocked (n : Nat) :
    ∀ rest, wellLockedAux (suspendBody (n + 1) ++ rest) 0 = false := by
  induction n with
  | zero => intro rest; simp [suspendBody, wellLockedAux]
  | succ n ih =>
    intro rest
    have h : suspendBody (n + 1 + 1)
        = suspendBody (n + 1) ++ [Event.distRead, Event.distWrite, Event.distWrite] := rfl
    rw [h, List.append_assoc]
    exact ih _

theorem resumeBody_append_unlocked (n : Nat) :
    ∀ rest, wellLockedAux (resumeBody (n + 1) ++ rest) 0 = false := by
  induction n with
  | zero => intro rest; simp [resumeBody, wellLockedAux]
  | succ n ih =>
    intro rest
    have h : resumeBody (n + 1 + 1)
        = resumeBody (n + 1) ++ [Event.distWrite, Event.distWrite] := rfl
    rw [h, List.append_assoc]
    exact ih _

/- ### Claim theorems -/

/-- C1 (amended).  Suspend/resume round-trip from an arbitrary enabled
bitmask E and wake bitmask W: after `gic_suspend` the hardware enabled
word is the *wake set* W (not E ∩ W as claimed — the loop clears the
whole word before writing the wake word into the Enable-Set register),
`enabled_irqs` snapshots E, and after the subsequent `gic_resume`
(nothing in between) the enabled word is exactly E again. -/
theorem suspend_resume_round_trip (g : GicChipData) (s : DistState)
    (hwf : ∀ j, s.enabled j < 2 ^ 32) (j : Nat) (hj : j * 32 < g.max_irq) :
    (gic_suspend g s).2.enabled j = w32 (g.wakeup_irqs j) ∧
    (gic_suspend g s).1.enabled_irqs j = s.enabled j ∧
    (gic_resume (gic_suspend g s).1 (gic_suspend g s).2).2.enabled j = s.enabled j := by
  have hn : j < numWords g.max_irq := by
    have h : numWords g.max_irq = (g.max_irq + 31) / 32 := rfl
    omega
  have h2 : (gic_suspend g s).1.enabled_irqs j = s.enabled j := by
    rw [gic_suspend, suspend_loop_snapshot _ g s j, if_pos hn]
  refine ⟨?_, h2, ?_⟩
  · rw [gic_suspend, suspend_loop_enabled _ g s j, if_pos hn]
  · have hmax : (gic_suspend g s).1.max_irq = g.max_irq :=
      (suspend_loop_chip_const _ g s).2.1
    rw [gic_resume, hmax, resume_loop_enabled _ _ _ j, if_pos hn, h2,
      w32_eq_of_lt (hwf j)]

/-- C1 witness: the round-trip theorem applied to the concrete
controller `chipA` / register file `distA` at word 0. -/
theorem suspend_resume_round_trip_wit :
    (gic_suspend chipA distA).2.enabled 0 = w32 (chipA.wakeup_irqs 0) ∧
    (gic_suspend chipA distA).1.enabled_irqs 0 = distA.enabled 0 ∧
    (gic_resume (gic_suspend chipA distA).1 (gic_suspend chipA distA).2).2.enabled 0
      = distA.enabled 0 :=
  suspend_resume_round_trip chipA distA
    (fun _ => by show (0 : Nat) < 2 ^ 32; norm_num) 0 (by decide)

/-- C1 counterexample: with E = ∅ and W = {bit 0} on one word, the
enabled word after `gic_suspend` is 1 (the wake set W), while E ∩ W = 0;
so "after suspend the enabled set equals E ∩ W" fails. -/
theorem suspend_enabled_ne_inter_wake :
    (gic_suspend chipA distA).2.enabled 0 = 1 ∧
    distA.enabled 0 &&& chipA.wakeup_irqs 0 = 0 := by decide

/-- C2 (amended).  For a line with `local_line ≥ 16`, `set_type` only
ever touches the *high* bit of the line's 2-bit config field (the config
mask is `0x2 << ...`, not `0x3 << ...`): EdgeRising sets the high bit
and leaves the low bit as it was, so the field becomes `old ||| 2`, not
necessarily `10`; EdgeRising followed by LevelHigh clears the high bit
and leaves the low bit, so the field becomes `old &&& 1`, not
necessarily `00`.  The 2-bit fields of all other lines sharing the same
16-line config word, and all other config words, are unchanged by both
calls. -/
theorem set_type_conf_field (irq offset : Nat) (s : DistState)
    (h16 : 16 ≤ irq - offset) :
    confField ((gic_set_type irq offset IRQ_TYPE_EDGE_RISING s).st.cfg
        ((irq - offset) / 16)) ((irq - offset) % 16)
      = confField (s.cfg ((irq - offset) / 16)) ((irq - offset) % 16) ||| 2 ∧
    confField ((gic_set_type irq offset IRQ_TYPE_LEVEL_HIGH
        (gic_set_type irq offset IRQ_TYPE_EDGE_RISING s).st).st.cfg
        ((irq - offset) / 16)) ((irq - offset) % 16)
      = confField (s.cfg ((irq - offset) / 16)) ((irq - offset) % 16) &&& 1 ∧
    (∀ j, j ≠ (irq - offset) / 16 →
      (gic_set_type irq offset IRQ_TYPE_EDGE_RISING s).st.cfg j = s.cfg j ∧
      (gic_set_type irq offset IRQ_TYPE_LEVEL_HIGH
        (gic_set_type irq offset IRQ_TYPE_EDGE_RISING s).st).st.cfg j = s.cfg j) ∧
    (∀ k', k' < 16 → k' ≠ (irq - offset) % 16 →
      confField ((gic_set_type irq offset IRQ_TYPE_EDGE_RISING s).st.cfg
          ((irq - offset) / 16)) k'
        = confField (s.cfg ((irq - offset) / 16)) k' ∧
      confField ((gic_set_type irq offset IRQ_TYPE_LEVEL_HIGH
          (gic_set_type irq offset IRQ_TYPE_EDGE_RISING s).st).st.cfg
          ((irq - offset) / 16)) k'
        = confField (s.cfg ((irq - offset) / 16)) k') := by
  have hk : (irq - offset) % 16 < 16 := Nat.mod_lt _ (by norm_num)
  have hER := gic_set_type_cfg_ER irq offset s h16
  have hLH := gic_set_type_cfg_LH irq offset
    (gic_set_type irq offset IRQ_TYPE_EDGE_RISING s).st h16
  have hcw1 : (gic_set_type irq offset IRQ_TYPE_EDGE_RISING s).st.cfg
      ((irq - offset) / 16)
      = w32 (s.cfg ((irq - offset) / 16) ||| 0x2 <<< (((irq - offset) % 16) * 2)) := by
    simp [hER]
  have hcw2 : (gic_set_type irq offset IRQ_TYPE_LEVEL_HIGH
      (gic_set_type irq offset IRQ_TYPE_EDGE_RISING s).st).st.cfg
      ((irq - offset) / 16)
      = w32 ((gic_set_type irq offset IRQ_TYPE_EDGE_RISING s).st.cfg
          ((irq - offset) / 16)
        &&& wnot (0x2 <<< (((irq - offset) % 16) * 2))) := by
    simp [hLH]
  refine ⟨?_, ?_, ?_, ?_⟩
  · rw [hcw1, confField_w32 _ _ hk, confField_or_self]
  · rw [hcw2, hcw1, confField_w32 _ _ hk, confField_and_wnot_self _ _ hk,
      confField_w32 _ _ hk, confField_or_self, or_two_and_one]
  · intro j hj
    constructor
    · simp [hER, hj]
    · simp [hLH, hER, hj]
  · intro k' hk' hne
    constructor
    · rw [hcw1, confField_w32 _ _ hk', confField_or_other _ _ _ hne]
    · rw [hcw2, hcw1, confField_w32 _ _ hk',
        confField_and_wnot_other _ _ _ hk hk' hne,
        confField_w32 _ _ hk', confField_or_other _ _ _ hne]

/-- C2 witness: the amended theorem applied to local line 16 (config
word 1, field 0) of `distA`. -/
theorem set_type_conf_field_wit :
    confField ((gic_set_type 16 0 IRQ_TYPE_EDGE_RISING distA).st.cfg 1) 0
      = confField (distA.cfg 1) 0 ||| 2 ∧
    confField ((gic_set_type 16 0 IRQ_TYPE_LEVEL_HIGH
        (gic_set_type 16 0 IRQ_TYPE_EDGE_RISING distA).st).st.cfg 1) 0
      = confField (distA.cfg 1) 0 &&& 1 := by
  have h := set_type_conf_field 16 0 distA (by decide)
  exact ⟨h.1, h.2.1⟩

/-- C2 counterexample: on `distA` (config word 1 has the low bit of
field 0 set), `set_type(line 16, EdgeRising)` leaves the 2-bit field at
`11`, not exactly `10`; the subsequent `set_type(line 16, LevelHigh)`
leaves it at `01`, not the LevelHigh encoding `00`. -/
theorem set_type_conf_field_cx :
    confField ((gic_set_type 16 0 IRQ_TYPE_EDGE_RISING distA).st.cfg 1) 0 ≠ 2 ∧
    confField ((gic_set_type 16 0 IRQ_TYPE_LEVEL_HIGH
        (gic_set_type 16 0 IRQ_TYPE_EDGE_RISING distA).st).st.cfg 1) 0 ≠ 0 := by decide

/-- C3 (amended).  `gic_mask_irq`, `gic_unmask_irq`, `gic_set_type` and
`gic_set_cpu` perform every Distributor register access between the
acquire and the matching release of the Global Lock
(`irq_controller_lock`).  `gic_set_wake` takes no lock but also performs
no Distributor register access at all (its only effect is the in-memory
snapshot update).  Contrary to the claim, `gic_suspend` and `gic_resume`
do access Distributor registers, and they do so without ever acquiring
the lock. -/
theorem lock_discipline :
    wellLocked gic_mask_irq_trace = true ∧
    wellLocked gic_unmask_irq_trace = true ∧
    (∀ gicirq ty e, wellLocked (gic_set_type_trace gicirq ty e) = true) ∧
    (∀ d, wellLocked (gic_set_cpu_trace d) = true) ∧
    touchesDist gic_set_wake_trace = false ∧
    (∀ n, 0 < n → wellLocked (gic_suspend_trace n) = false ∧
      touchesDist (gic_suspend_trace n) = true) ∧
    (∀ n, 0 < n → wellLocked (gic_resume_trace n) = false ∧
      touchesDist (gic_resume_trace n) = true) := by
  refine ⟨by decide, by decide, ?_, ?_, by decide, ?_, ?_⟩
  · intro gicirq ty e
    cases e <;> (unfold gic_set_type_trace; split_ifs <;> decide)
  · intro d
    cases d <;> decide
  · intro n hn
    obtain ⟨m, rfl⟩ : ∃ m, n = m + 1 := ⟨n - 1, by omega⟩
    constructor
    · exact suspendBody_append_unlocked m _
    · have h : gic_suspend_trace (m + 1)
          = suspendBody m ++ [Event.distRead, Event.distWrite, Event.distWrite]
            ++ [Event.barrier] := rfl
      rw [h]
      simp [touchesDist]
  · intro n hn
    obtain ⟨m, rfl⟩ : ∃ m, n = m + 1 := ⟨n - 1, by omega⟩
    constructor
    · exact resumeBody_append_unlocked m _
    · have h : gic_resume_trace (m + 1)
          = resumeBody m ++ [Event.distWrite, Event.distWrite]
            ++ [Event.barrier] := rfl
      rw [h]
      simp [touchesDist]

/-- C3 witness: the discipline theorem applied to a successful
`set_type` on an enabled line 16, and to a two-word suspend. -/
theorem lock_discipline_wit :
    wellLocked (gic_set_type_trace 16 IRQ_TYPE_EDGE_RISING true) = true ∧
    wellLocked (gic_suspend_trace 2) = false :=
  ⟨lock_discipline.2.2.1 16 IRQ_TYPE_EDGE_RISING true,
   (lock_discipline.2.2.2.2.2.1 2 (by decide)).1⟩

/-- C3 counterexample: the one-word `gic_suspend` trace reads and
writes Distributor Enable registers yet is not lock-protected, so "for
each of mask/unmask/set_type/set_affinity/set_wake/suspend/resume,
every Distributor register access occurs between a lock acquire and the
matching release" is false for `suspend` (and likewise `resume`). -/
theorem suspend_trace_unlocked_cx :
    wellLocked (gic_suspend_trace 1) = false ∧
    touchesDist (gic_suspend_trace 1) = true := by decide

/-- C4 (amended).  `gic_set_cpu` performs *no* banked-line check: it
never tests `local_line < 32`.  When the external dispatch registry has
no descriptor for the line it fails with `-EINVAL`
(`InvalidArgument`) — not with a distinct `NotFound` code — leaving the
register state unchanged.  With a live descriptor it succeeds for any
line, clearing the line's target byte and ORing in `1 << c` where `c`
is the first CPU of the requested mask, and modifies nothing else
(assuming the 32-aligned controller offset set up by `gic_init`). -/
theorem gic_set_cpu_spec (irq offset cpu : Nat) (s : DistState)
    (hoff : offset % 32 = 0) (hle : offset ≤ irq) (hcpu : cpu < 8) :
    gic_set_cpu irq offset cpu false s = ⟨EINVAL_ret, s, none⟩ ∧
    (gic_set_cpu irq offset cpu true s).ret = 0 ∧
    (gic_set_cpu irq offset cpu true s).node = some cpu ∧
    byteField ((gic_set_cpu irq offset cpu true s).st.target ((irq - offset) / 4))
      ((irq - offset) % 4) = 1 <<< cpu ∧
    (∀ b, b < 4 → b ≠ (irq - offset) % 4 →
      byteField ((gic_set_cpu irq offset cpu true s).st.target ((irq - offset) / 4)) b
        = byteField (s.target ((irq - offset) / 4)) b) ∧
    (∀ j, j ≠ (irq - offset) / 4 →
      (gic_set_cpu irq offset cpu true s).st.target j = s.target j) ∧
    (gic_set_cpu irq offset cpu true s).st.enabled = s.enabled ∧
    (gic_set_cpu irq offset cpu true s).st.cfg = s.cfg ∧
    (gic_set_cpu irq offset cpu true s).st.pending = s.pending := by
  have hq : irq % 4 = (irq - offset) % 4 := by omega
  have hb : (irq - offset) % 4 < 4 := Nat.mod_lt _ (by norm_num)
  have htg : (gic_set_cpu irq offset cpu true s).st.target = fun j =>
      if j = (irq - offset) / 4
      then w32 ((s.target ((irq - offset) / 4)
            &&& wnot (0xff <<< (((irq - offset) % 4) * 8)))
          ||| 1 <<< (cpu + ((irq - offset) % 4) * 8))
      else s.target j := by
    funext j
    simp [gic_set_cpu, hq]
  refine ⟨by simp [gic_set_cpu], by simp [gic_set_cpu], by simp [gic_set_cpu],
    ?_, ?_, ?_, by simp [gic_set_cpu], by simp [gic_set_cpu], by simp [gic_set_cpu]⟩
  · simp only [htg, if_true]
    rw [byteField_w32 _ _ hb, byteField_target_self _ _ _ hb hcpu]
  · intro b hb4 hbne
    simp only [htg, if_true]
    rw [byteField_w32 _ _ hb4,
      byteField_target_other _ _ _ _ hb hb4 hbne hcpu]
  · intro j hj
    simp only [htg]
    rw [if_neg hj]

/-- C4 witness: the amended theorem applied to global line 36 on a
controller with offset 32 (local line 4, Target word 1, byte 0),
routing to CPU 2. -/
theorem gic_set_cpu_spec_wit :
    (gic_set_cpu 36 32 2 true distA).ret = 0 ∧
    byteField ((gic_set_cpu 36 32 2 true distA).st.target 1) 0 = 1 <<< 2 := by
  have h := gic_set_cpu_spec 36 32 2 distA (by decide) (by decide) (by decide)
  exact ⟨h.2.1, h.2.2.2.1⟩

/-- C4 counterexample: for local line 0 (a banked line, `local_line <
32`) with a live descriptor, `gic_set_cpu` does *not* fail with
`InvalidArgument`: it returns 0 and writes the Target register, so
"fails with InvalidArgument whenever local_line < 32 (leaving all
register state unchanged)" is false. -/
theorem gic_set_cpu_banked_cx :
    (gic_set_cpu 0 0 0 true distA).ret = 0 ∧
    (gic_set_cpu 0 0 0 true distA).st.target 0 = 1 ∧
    distA.target 0 = 0 := by decide

/-- C5 (amended).  `gic_set_wake` on a line with `local_line < 32` is
not fatal: `WARN_ON` only emits a diagnostic and execution continues,
so the call always returns 0 and always flips bit `local_line % 32` of
`wake_snapshot` word `local_line / 32` — for banked lines just as for
shared ones.  The warning flag is raised exactly when
`local_line < 32`. -/
theorem gic_set_wake_spec (irq offset : Nat) (onv : Bool) (g : GicChipData) :
    (gic_set_wake irq offset onv g).ret = 0 ∧
    ((gic_set_wake irq offset onv g).warned = true ↔ irq - offset < 32) ∧
    ((gic_set_wake irq offset onv g).chip.wakeup_irqs ((irq - offset) / 32)).testBit
      ((irq - offset) % 32) = onv := by
  have hb : (irq - offset) % 32 < 32 := Nat.mod_lt _ (by norm_num)
  have hupd : (gic_set_wake irq offset onv g).chip.wakeup_irqs ((irq - offset) / 32)
      = (if onv then g.wakeup_irqs ((irq - offset) / 32) ||| 1 <<< ((irq - offset) % 32)
         else g.wakeup_irqs ((irq - offset) / 32)
              &&& wnot (1 <<< ((irq - offset) % 32))) := by
    simp [gic_set_wake]
  refine ⟨rfl, by simp [gic_set_wake], ?_⟩
  rw [hupd]
  cases onv
  · rw [if_neg (by decide : ¬ (false = true)), and_wnot_single_testBit_lt hb hb]
    simp
  · rw [if_pos rfl, or_single_testBit]
    simp

/-- C5 counterexample: `gic_set_wake` on local line 0 (`< 32`) returns
normally with 0 and *does* modify `wake_snapshot` (bit 0 of word 0 goes
from 0 to 1), so "a fatal assertion-style fault that does not return
normally and does not modify wake_snapshot" is false; only the
diagnostic warning fires. -/
theorem gic_set_wake_banked_cx :
    (gic_set_wake 0 0 true chipB).ret = 0 ∧
    (gic_set_wake 0 0 true chipB).warned = true ∧
    (gic_set_wake 0 0 true chipB).chip.wakeup_irqs 0 = 1 ∧
    chipB.wakeup_irqs 0 = 0 := by decide

/-- C6.  `gic_handle_cascade_irq` always acks the primary line before
the (locked) read of the secondary Interrupt-Acknowledge register, and
every path ends with the primary unmask.  For the low 10 bits `v` of the
read value: 1023 dispatches nothing further; `32 ≤ v ≤ 1020` with
`v + secondary_offset < NR_IRQS` dispatches global line `v + offset` to
the generic entry point; every other value goes to `do_bad_IRQ` (the
malformed-interrupt report) and is not dispatched to generic handling. -/
theorem gic_handle_cascade_spec (status offset nrIrqs : Nat) :
    (gic_handle_cascade_irq status offset nrIrqs).take 4
      = [CEvent.ackPrimary, CEvent.lockE, CEvent.readIntAck, CEvent.unlockE] ∧
    (gic_handle_cascade_irq status offset nrIrqs).getLast?
      = some CEvent.unmaskPrimary ∧
    (status &&& 0x3ff = 1023 →
      gic_handle_cascade_irq status offset nrIrqs
        = [CEvent.ackPrimary, CEvent.lockE, CEvent.readIntAck, CEvent.unlockE,
           CEvent.unmaskPrimary]) ∧
    (32 ≤ status &&& 0x3ff → status &&& 0x3ff ≤ 1020 →
      (status &&& 0x3ff) + offset < nrIrqs →
      gic_handle_cascade_irq status offset nrIrqs
        = [CEvent.ackPrimary, CEvent.lockE, CEvent.readIntAck, CEvent.unlockE,
           CEvent.dispatch ((status &&& 0x3ff) + offset), CEvent.unmaskPrimary]) ∧
    (status &&& 0x3ff ≠ 1023 →
      (status &&& 0x3ff < 32 ∨ 1020 < status &&& 0x3ff ∨
        nrIrqs ≤ (status &&& 0x3ff) + offset) →
      gic_handle_cascade_irq status offset nrIrqs
        = [CEvent.ackPrimary, CEvent.lockE, CEvent.readIntAck, CEvent.unlockE,
           CEvent.badIRQ ((status &&& 0x3ff) + offset), CEvent.unmaskPrimary]) := by
  by_cases h1 : status &&& 0x3ff = 1023
  · have ht : gic_handle_cascade_irq status offset nrIrqs
        = [CEvent.ackPrimary, CEvent.lockE, CEvent.readIntAck, CEvent.unlockE,
           CEvent.unmaskPrimary] := by
      simp [gic_handle_cascade_irq, h1]
    refine ⟨by rw [ht]; rfl, by rw [ht]; rfl, fun _ => ht, ?_, ?_⟩
    · intro _ h2 _
      omega
    · intro hne _
      exact absurd h1 hne
  · by_cases h2 : status &&& 0x3ff < 32 ∨ status &&& 0x3ff > 1020 ∨
        (status &&& 0x3ff) + offset ≥ nrIrqs
    · have ht : gic_handle_cascade_irq status offset nrIrqs
          = [CEvent.ackPrimary, CEvent.lockE, CEvent.readIntAck, CEvent.unlockE,
             CEvent.badIRQ ((status &&& 0x3ff) + offset), CEvent.unmaskPrimary] := by
        simp [gic_handle_cascade_irq, h1, h2]
      refine ⟨by rw [ht]; rfl, by rw [ht]; rfl, fun hc => absurd hc h1, ?_, fun _ _ => ht⟩
      intro ha hb hc
      omega
    · have ht : gic_handle_cascade_irq status offset nrIrqs
          = [CEvent.ackPrimary, CEvent.lockE, CEvent.readIntAck, CEvent.unlockE,
             CEvent.dispatch ((status &&& 0x3ff) + offset), CEvent.unmaskPrimary] := by
        simp [gic_handle_cascade_irq, h1, h2]
      refine ⟨by rw [ht]; rfl, by rw [ht]; rfl, fun hc => absurd hc h1, fun _ _ _ => ht, ?_⟩
      intro _ hc
      omega

/-- C6 witness: acknowledge value 40 on a secondary controller with
offset 32 and `NR_IRQS = 256` dispatches global line 72, matching the
spec's worked example. -/
theorem gic_handle_cascade_spec_wit :
    gic_handle_cascade_irq 40 32 256
      = [CEvent.ackPrimary, CEvent.lockE, CEvent.readIntAck, CEvent.unlockE,
         CEvent.dispatch 72, CEvent.unmaskPrimary] := by
  have h := (gic_handle_cascade_spec 40 32 256).2.2.2.1
    (by decide) (by decide) (by decide)
  exact h

/-- C7.  With the controller offset computed by `gic_init`
(`(irq_start - 1) & ~31`, always a multiple of 32), the enable bit that
`gic_mask_irq` computes from the *global* irq number
(`1 << (d->irq % 32)`) coincides with the single bit
`1 << (local_line % 32)`, and the write goes to the Enable-Clear word
`local_line / 32`; `gic_unmask_irq` writes the same bit to the
Enable-Set word at the same offset. -/
theorem mask_unmask_local_bit (irq irq_start : Nat)
    (hle : gic_init_offset irq_start ≤ irq) :
    1 <<< (irq % 32) = 1 <<< ((irq - gic_init_offset irq_start) % 32) ∧
    (∀ s, gic_mask_irq irq (gic_init_offset irq_start) s
      = writeEnableClear s ((irq - gic_init_offset irq_start) / 32)
          (1 <<< ((irq - gic_init_offset irq_start) % 32))) ∧
    (∀ s, gic_unmask_irq irq (gic_init_offset irq_start) s
      = writeEnableSet s ((irq - gic_init_offset irq_start) / 32)
          (1 <<< ((irq - gic_init_offset irq_start) % 32))) := by
  have hmod := gic_init_offset_mod32 irq_start
  have heq : irq % 32 = (irq - gic_init_offset irq_start) % 32 := by omega
  exact ⟨by rw [heq], fun s => by rw [gic_mask_irq, heq],
    fun s => by rw [gic_unmask_irq, heq]⟩

/-- C7 witness: `irq_start = 33` gives offset 32; global line 69 is
local line 37, so the written bit is `1 << 5` at word 1. -/
theorem mask_unmask_local_bit_wit :
    1 <<< (69 % 32) = 1 <<< ((69 - gic_init_offset 33) % 32) ∧
    gic_mask_irq 69 (gic_init_offset 33) distA
      = writeEnableClear distA ((69 - gic_init_offset 33) / 32)
          (1 <<< ((69 - gic_init_offset 33) % 32)) := by
  have h := mask_unmask_local_bit 69 33 (by decide)
  exact ⟨h.1, h.2.1 distA⟩

/-- C8.  For every line with `local_line < 16` (whatever the requested
kind), and for every line whose requested kind is neither LevelHigh nor
EdgeRising, `gic_set_type` returns `-EINVAL` and the entire register
state is returned bit-for-bit unchanged (the failure paths run before
any register access). -/
theorem set_type_invalid_frame (irq offset ty : Nat) (s : DistState)
    (h : irq - offset < 16 ∨ (ty ≠ IRQ_TYPE_LEVEL_HIGH ∧ ty ≠ IRQ_TYPE_EDGE_RISING)) :
    gic_set_type irq offset ty s = ⟨EINVAL_ret, s, false⟩ := by
  unfold gic_set_type
  rcases h with h | h
  · rw [if_pos h]
  · by_cases h16 : irq - offset < 16
    · rw [if_pos h16]
    · rw [if_neg h16, if_pos h]

/-- C8 witness: kind 2 (`IRQ_TYPE_EDGE_FALLING`, unrecognized) on
shared line 32 fails with `-EINVAL` and leaves `distA` untouched. -/
theorem set_type_invalid_frame_wit :
    gic_set_type 32 0 2 distA = ⟨EINVAL_ret, distA, false⟩ :=
  set_type_invalid_frame 32 0 2 distA (Or.inr (by decide))

/-- C9.  For a CPU-mask word `map` (byte-wide in practice; any value
below 2^16) and a local line `n < 1024`, the word `gic_raise_softirq`
writes to controller 0's Software-Interrupt register is
`map << 16 | n`: its low 10 bits equal `n`, and bit `16 + c` is set
exactly when CPU `c` is in the mask. -/
theorem raise_softirq_encoding (map irq : Nat) (hirq : irq < 1024)
    (hmap : map < 2 ^ 16) :
    gic_raise_softirq_val map irq % 1024 = irq ∧
    ∀ c, (gic_raise_softirq_val map irq).testBit (16 + c) = map.testBit c := by
  have h16 : (2 : Nat) ^ 16 = 65536 := by norm_num
  have h32 : (2 : Nat) ^ 32 = 4294967296 := by norm_num
  have hmlt : map <<< 16 < 2 ^ 32 := by
    rw [Nat.shiftLeft_eq]
    omega
  have hv : map <<< 16 ||| irq < 2 ^ 32 := Nat.or_lt_two_pow hmlt (by omega)
  have hw : gic_raise_softirq_val map irq = map <<< 16 ||| irq := by
    rw [gic_raise_softirq_val, w32_eq_of_lt hv]
  constructor
  · rw [hw, show (1024 : Nat) = 2 ^ 10 from by norm_num,
      ← Nat.and_pow_two_sub_one_eq_mod]
    apply Nat.eq_of_testBit_eq
    intro i
    simp only [Nat.testBit_and, Nat.testBit_or, Nat.testBit_shiftLeft,
      Nat.testBit_two_pow_sub_one]
    rcases Nat.lt_or_ge i 10 with hi | hi
    · simp [decide_eq_false (by omega : ¬ 16 ≤ i), decide_eq_true hi]
    · have hfi : irq.testBit i = false := by
        apply Nat.testBit_lt_two_pow
        have hpl : (2 : Nat) ^ 10 ≤ 2 ^ i := Nat.pow_le_pow_right (by norm_num) (by omega)
        have h10 : (2 : Nat) ^ 10 = 1024 := by norm_num
        omega
      simp [hfi, decide_eq_false (by omega : ¬ i < 10)]
  · intro c
    have hfi : irq.testBit (16 + c) = false := by
      apply Nat.testBit_lt_two_pow
      have hpl : (2 : Nat) ^ 10 ≤ 2 ^ (16 + c) :=
        Nat.pow_le_pow_right (by norm_num) (by omega)
      have h10 : (2 : Nat) ^ 10 = 1024 := by norm_num
      omega
    rw [hw, Nat.testBit_or, Nat.testBit_shiftLeft, hfi,
      decide_eq_true (by omega : 16 ≤ 16 + c),
      show 16 + c - 16 = c from by omega]
    simp

/-- C9 witness: mask `{cpu2, cpu5}` (0b100100 = 36) with line 9: the
written word has low 10 bits 9 and bits 18 and 21 set. -/
theorem raise_softirq_encoding_wit :
    gic_raise_softirq_val 36 9 % 1024 = 9 ∧
    (gic_raise_softirq_val 36 9).testBit 18 = true ∧
    (gic_raise_softirq_val 36 9).testBit 21 = true := by
  have h := raise_softirq_encoding 36 9 (by decide) (by decide)
  refine ⟨h.1, ?_, ?_⟩
  · rw [show 18 = 16 + 2 from rfl, h.2 2]
    decide
  · rw [show 21 = 16 + 5 from rfl, h.2 5]
    decide

/-- C10.  `gic_set_wake` performs no hardware register access: the
distributor register file is returned untouched, the enabled snapshot
and the other controller bookkeeping fields are unchanged, every
other `wake_snapshot` word is unchanged, and within the targeted word
only bit `local_line % 32` changes — it ends up equal to the requested
`on` value (the wake bits reach hardware only at the next suspend). -/
theorem gic_set_wake_frame (irq offset : Nat) (onv : Bool) (g : GicChipData)
    (s : DistState) (hw : ∀ j, g.wakeup_irqs j < 2 ^ 32) :
    (gic_set_wake_full irq offset onv g s).2.2 = s ∧
    (gic_set_wake_full irq offset onv g s).2.1.enabled_irqs = g.enabled_irqs ∧
    (gic_set_wake_full irq offset onv g s).2.1.irq_offset = g.irq_offset ∧
    (gic_set_wake_full irq offset onv g s).2.1.max_irq = g.max_irq ∧
    (∀ j, j ≠ (irq - offset) / 32 →
      (gic_set_wake_full irq offset onv g s).2.1.wakeup_irqs j = g.wakeup_irqs j) ∧
    (∀ b, b ≠ (irq - offset) % 32 →
      ((gic_set_wake_full irq offset onv g s).2.1.wakeup_irqs
        ((irq - offset) / 32)).testBit b
        = (g.wakeup_irqs ((irq - offset) / 32)).testBit b) ∧
    ((gic_set_wake_full irq offset onv g s).2.1.wakeup_irqs
      ((irq - offset) / 32)).testBit ((irq - offset) % 32) = onv := by
  have hb : (irq - offset) % 32 < 32 := Nat.mod_lt _ (by norm_num)
  have hupd : (gic_set_wake_full irq offset onv g s).2.1.wakeup_irqs
      ((irq - offset) / 32)
      = (if onv then g.wakeup_irqs ((irq - offset) / 32) ||| 1 <<< ((irq - offset) % 32)
         else g.wakeup_irqs ((irq - offset) / 32)
              &&& wnot (1 <<< ((irq - offset) % 32))) := by
    simp [gic_set_wake_full, gic_set_wake]
  refine ⟨rfl, rfl, rfl, rfl, ?_, ?_, ?_⟩
  · intro j hj
    simp [gic_set_wake_full, gic_set_wake, hj]
  · intro b hbne
    rw [hupd]
    cases onv
    · rw [if_neg (by decide : ¬ (false = true)),
        and_wnot_single_testBit (hw _) hb]
      simp [hbne]
    · rw [if_pos rfl, or_single_testBit]
      simp [hbne]
  · rw [hupd]
    cases onv
    · rw [if_neg (by decide : ¬ (false = true)), and_wnot_single_testBit_lt hb hb]
      simp
    · rw [if_pos rfl, or_single_testBit]
      simp

/-- C10 witness: the frame theorem applied to `set_wake(line 40, on)` on
`chipB` / `distA`: the register file is untouched, bit 8 of wake word 1
is set, and wake word 0 is unchanged. -/
theorem gic_set_wake_frame_wit :
    (gic_set_wake_full 40 0 true chipB distA).2.2 = distA ∧
    ((gic_set_wake_full 40 0 true chipB distA).2.1.wakeup_irqs 1).testBit 8 = true ∧
    (gic_set_wake_full 40 0 true chipB distA).2.1.wakeup_irqs 0
      = chipB.wakeup_irqs 0 := by
  have h := gic_set_wake_frame 40 0 true chipB distA
    (fun _ => by show (0 : Nat) < 2 ^ 32; norm_num)
  exact ⟨h.1, h.2.2.2.2.2.2, h.2.2.2.2.1 0 (by decide)⟩

/-- C5 witness: the amended theorem instantiated at shared line 5 of
`chipA`. -/
theorem gic_set_wake_spec_wit :
    (gic_set_wake 5 0 true chipA).ret = 0 ∧
    ((gic_set_wake 5 0 true chipA).warned = true ↔ 5 - 0 < 32) ∧
    ((gic_set_wake 5 0 true chipA).chip.wakeup_irqs ((5 - 0) / 32)).testBit
      ((5 - 0) % 32) = true :=
  gic_set_wake_spec 5 0 true chipA
